import Mathlib

/-!
Verification of the shapefile-to-PostGIS ingestion extension
(`ckanext-shptoapi`): a shallow embedding of the pure logic of
`ckanext/shptoapi/db.py`, `logic.py` and `routes.py`, together with proofs
about it.  Python strings are embedded as Lean `String`/`List Char`
(Python strings are sequences of code points); the string operations the
source uses (`startswith`, `lower`, `split`, `os.path.normpath`, ...) are
defined here with Python's semantics.  All the `ShpToApiError` exceptions
raised by the source are embedded as `Except.error` carrying the message.
-/

namespace ShpToApi

/-! ### ASCII character helpers

Python's `re` character classes `[A-Za-z]`, `[0-9]` and `str.lower` on the
ASCII range, expressed on code points: 'A'..'Z' = 65..90, 'a'..'z' =
97..122, '0'..'9' = 48..57, '_' = 95.  (`str.lower` is Unicode-aware in
Python; every string the source lowers and that the theorems below reason
about is ASCII, so the ASCII mapping is the faithful fragment.) -/

def isPyUpper (c : Char) : Bool := 65 ≤ c.toNat && c.toNat ≤ 90

def isPyLow (c : Char) : Bool := 97 ≤ c.toNat && c.toNat ≤ 122

def isPyDigit (c : Char) : Bool := 48 ≤ c.toNat && c.toNat ≤ 57

/-- the regex class `[A-Za-z0-9]` (complement of `[^A-Za-z0-9]` in
`_build_table_name`). -/
def isPyAlnum (c : Char) : Bool := isPyUpper c || isPyLow c || isPyDigit c

/-- `str.lower` on one character (ASCII fragment). -/
def asciiLower (c : Char) : Char :=
  if isPyUpper c then Char.ofNat (c.toNat + 32) else c

/-- `str.lower` (ASCII fragment). -/
def lowerL (l : List Char) : List Char := l.map asciiLower

theorem toNat_ofNat_valid (n : Nat) (h : n.isValidChar) : (Char.ofNat n).toNat = n := by
  simp [Char.ofNat, h, Char.ofNatAux, Char.toNat, UInt32.toNat, BitVec.toNat_ofNatLt]

theorem toNat_asciiLower_of_upper (c : Char) (h : isPyUpper c = true) :
    (asciiLower c).toNat = c.toNat + 32 := by
  simp only [isPyUpper, Bool.and_eq_true, decide_eq_true_eq] at h
  have hv : (c.toNat + 32).isValidChar := Or.inl (by omega)
  simp [asciiLower, isPyUpper, h.1, h.2, toNat_ofNat_valid _ hv]

theorem asciiLower_of_not_upper (c : Char) (h : isPyUpper c = false) :
    asciiLower c = c := by
  simp [asciiLower, h]

/-! ### The identifier pattern (db.py `SAFE_NAME`)

`SAFE_NAME = re.compile(r"^[A-Za-z_][A-Za-z0-9_]*$")` -/

/-- the class `[A-Za-z_]`. -/
def isIdentStartC (c : Char) : Bool := isPyUpper c || isPyLow c || c.toNat = 95

/-- the class `[A-Za-z0-9_]`. -/
def isIdentContC (c : Char) : Bool := isIdentStartC c || isPyDigit c

/-- the exact language of `^[A-Za-z_][A-Za-z0-9_]*$` (anchors read as
string start / string end): one start character followed by continuation
characters. -/
def identCore : List Char → Bool
  | [] => false
  | c :: rest => isIdentStartC c && rest.all isIdentContC

/-- Spec-side predicate: the candidate "matches the regex
`^[A-Za-z_][A-Za-z0-9_]*$`", in the exact-language reading of the
anchors. -/
def matchesIdentPattern (s : String) : Bool := identCore s.data

/-- Truth value of `SAFE_NAME.match(value)` (db.py line 18).  Python's
`$` matches at the end of the string *or just before a newline at the end
of the string*, so the compiled pattern also accepts a matching name
followed by one trailing `'\n'`. -/
def safeNameMatch (s : String) : Bool :=
  identCore s.data || (s.data.getLast? == some '\n' && identCore s.data.dropLast)

/-- `db._safe_identifier(value, kind)` — raises `ShpToApiError` for an
empty value (`not value`) or a value `SAFE_NAME` does not match. -/
def safe_identifier (value : String) (kind : String) : Except String String :=
  if value = "" ∨ safeNameMatch value = false then
    Except.error ("Invalid " ++ kind ++ " name: " ++ value)
  else
    Except.ok value

/-- `db.build_full_table(schema, table)`: sanitize the table name, then —
when `schema` is truthy (not `None`, not empty) — sanitize the schema and
qualify. -/
def build_full_table (schema : Option String) (table : String) : Except String String :=
  match safe_identifier table "table" with
  | Except.error e => Except.error e
  | Except.ok t =>
    match schema with
    | some s =>
      if s ≠ "" then
        match safe_identifier s "schema" with
        | Except.error e => Except.error e
        | Except.ok s2 => Except.ok (s2 ++ "." ++ t)
      else Except.ok t
    | none => Except.ok t

/-! ### Table-name derivation (logic.py `_build_table_name`) -/

/-- `re.sub(r"[^A-Za-z0-9]", "", s)`: drop every character outside
`[A-Za-z0-9]`. -/
def stripNonAlnum (l : List Char) : List Char := l.filter isPyAlnum

/-- `logic._build_table_name(resource_id, prefix)`: strip non-alphanumerics
from the resource id, fall back to `"resource"` when nothing is left,
prepend the configured table prefix, lower-case the whole string and keep
the first 60 characters. -/
def build_table_name (resourceId : String) (pre : String) : String :=
  let safeId := stripNonAlnum resourceId.data
  let safeId2 := if safeId = [] then "resource".data else safeId
  String.mk ((lowerL (pre.data ++ safeId2)).take 60)

/-! ### Character-level facts about lower-casing -/

theorem isPyUpper_asciiLower (c : Char) : isPyUpper (asciiLower c) = false := by
  cases h : isPyUpper c with
  | true =>
    have ht := toNat_asciiLower_of_upper c h
    simp only [isPyUpper, Bool.and_eq_true, decide_eq_true_eq] at h
    simp [isPyUpper, ht]; omega
  | false => rw [asciiLower_of_not_upper c h]; exact h

theorem asciiLower_idem (c : Char) : asciiLower (asciiLower c) = asciiLower c := by
  show (if isPyUpper (asciiLower c) then Char.ofNat ((asciiLower c).toNat + 32)
      else asciiLower c) = asciiLower c
  rw [isPyUpper_asciiLower]
  simp

theorem isPyAlnum_asciiLower (c : Char) (h : isPyAlnum c = true) :
    isPyAlnum (asciiLower c) = true := by
  cases hu : isPyUpper c with
  | true =>
    have ht := toNat_asciiLower_of_upper c hu
    simp only [isPyUpper, Bool.and_eq_true, decide_eq_true_eq] at hu
    simp [isPyAlnum, isPyLow, ht]
    omega
  | false => rw [asciiLower_of_not_upper c hu]; exact h

theorem isIdentContC_asciiLower (c : Char) (h : isPyAlnum c = true) :
    isIdentContC (asciiLower c) = true := by
  cases hu : isPyUpper c with
  | true =>
    have ht := toNat_asciiLower_of_upper c hu
    simp only [isPyUpper, Bool.and_eq_true, decide_eq_true_eq] at hu
    simp [isIdentContC, isIdentStartC, isPyLow, ht]
    omega
  | false =>
    rw [asciiLower_of_not_upper c hu]
    simp only [isPyAlnum, hu, Bool.false_or, Bool.or_eq_true] at h
    rcases h with h | h <;> simp [isIdentContC, isIdentStartC, h]

theorem map_eq_self_of {α : Type} (f : α → α) (l : List α) (h : ∀ x ∈ l, f x = x) :
    l.map f = l := by
  induction l with
  | nil => rfl
  | cons a t ih => simp [h a (by simp), ih (fun x hx => h x (by simp [hx]))]

theorem identCore_append (a b : List Char) (ha : identCore a = true)
    (hb : b.all isIdentContC = true) : identCore (a ++ b) = true := by
  cases a with
  | nil => exact absurd ha (by simp [identCore])
  | cons c rest =>
    rw [List.cons_append]
    simp only [identCore, Bool.and_eq_true, List.all_eq_true] at ha ⊢
    exact ⟨ha.1, fun x hx => by
      rcases List.mem_append.mp hx with h | h
      · exact ha.2 x h
      · exact (List.all_eq_true.mp hb) x h⟩

/-! ### Claim C2 -/

/-- Claim C2 counterexample: the sanitizer accepts `"a\n"` (Python's `$`
matches just before the trailing newline), yet `"a\n"` does not match the
identifier pattern `^[A-Za-z_][A-Za-z0-9_]*$` in its exact-language
reading, so "accepts iff the name matches the regex" fails at this
input. -/
theorem safe_identifier_accepts_trailing_newline :
    safe_identifier "a\n" "table" = Except.ok "a\n"
    ∧ matchesIdentPattern "a\n" = false := by
  constructor
  · simp [safe_identifier, safeNameMatch]
    decide
  · decide

/-- Claim C2 (amended): the sanitizer returns its input unchanged when it
accepts; it accepts exactly the names matching `^[A-Za-z_][A-Za-z0-9_]*$`
or such a match followed by one trailing newline (Python `re` `$`
semantics); it fails on the empty string; `build_full_table` returns
`schema.table` for a non-empty schema and `table` for an absent or empty
schema, sanitizing each part (table first). -/
theorem safe_identifier_spec :
    (∀ value kind v, safe_identifier value kind = Except.ok v → v = value)
    ∧ (∀ value kind, (∃ v, safe_identifier value kind = Except.ok v)
        ↔ (matchesIdentPattern value = true
            ∨ (value.data.getLast? = some '\n'
                ∧ matchesIdentPattern (String.mk value.data.dropLast) = true)))
    ∧ (∀ kind, ∃ e, safe_identifier "" kind = Except.error e)
    ∧ (∀ s t, safe_identifier s "schema" = Except.ok s →
        safe_identifier t "table" = Except.ok t → s ≠ "" →
        build_full_table (some s) t = Except.ok (s ++ "." ++ t))
    ∧ (∀ t, safe_identifier t "table" = Except.ok t →
        build_full_table none t = Except.ok t
          ∧ build_full_table (some "") t = Except.ok t)
    ∧ (∀ schema t e, safe_identifier t "table" = Except.error e →
        build_full_table schema t = Except.error e) := by
  refine ⟨?_, ?_, ?_, ?_, ?_, ?_⟩
  · intro value kind v h
    unfold safe_identifier at h
    split at h
    · exact absurd h (by simp)
    · exact (Except.ok.inj h).symm
  · intro value kind
    constructor
    · intro ⟨v, hv⟩
      unfold safe_identifier at hv
      split at hv
      · exact absurd hv (by simp)
      · rename_i hcond
        push_neg at hcond
        have hm : safeNameMatch value = true := by
          cases h : safeNameMatch value
          · exact absurd h hcond.2
          · rfl
        unfold safeNameMatch at hm
        simp only [Bool.or_eq_true, Bool.and_eq_true, beq_iff_eq] at hm
        rcases hm with h | ⟨h1, h2⟩
        · exact Or.inl h
        · exact Or.inr ⟨h1, h2⟩
    · intro h
      have hm : safeNameMatch value = true := by
        unfold safeNameMatch
        simp only [Bool.or_eq_true, Bool.and_eq_true, beq_iff_eq]
        rcases h with h | ⟨h1, h2⟩
        · exact Or.inl h
        · exact Or.inr ⟨h1, h2⟩
      have hne : value ≠ "" := by
        intro he
        subst he
        rcases h with h | ⟨h1, _⟩
        · exact absurd h (by decide)
        · exact absurd h1 (by decide)
      exact ⟨value, by unfold safe_identifier; rw [if_neg (by simp [hne, hm])]⟩
  · intro kind
    exact ⟨_, by unfold safe_identifier; rw [if_pos (Or.inl rfl)]⟩
  · intro s t hs ht hne
    unfold build_full_table
    rw [ht]
    simp [hne, hs]
  · intro t ht
    constructor
    · unfold build_full_table; rw [ht]
    · unfold build_full_table; rw [ht]; simp
  · intro schema t e ht
    unfold build_full_table
    rw [ht]

/-- Witness for `safe_identifier_spec`: the spec's own examples `"public"`
and `"vector_ab12"` qualify to `"public.vector_ab12"`. -/
theorem safe_identifier_spec_witness :
    build_full_table (some "public") "vector_ab12" = Except.ok "public.vector_ab12" :=
  safe_identifier_spec.2.2.2.1 "public" "vector_ab12" rfl rfl (by decide)

/-! ### Claim C5 -/

/-- Claim C5 counterexample: re-applying table-name derivation to its own
output (with the default prefix, as in the claim's own example) prepends
the prefix again and strips its underscore, so the derivation is not
idempotent: `vector_abc123` maps to `vector_vectorabc123`. -/
theorem build_table_name_reapply_counterexample :
    build_table_name (build_table_name "abc-123!!" "vector_") "vector_"
      ≠ build_table_name "abc-123!!" "vector_" := by decide

theorem build_table_name_len (rid pre : String) :
    (build_table_name rid pre).length ≤ 60 := by
  simp only [build_table_name, String.length]
  simp [List.length_take]

theorem build_table_name_empty_pre_idem (rid : String) :
    build_table_name (build_table_name rid "") "" = build_table_name rid "" := by
  by_cases h : stripNonAlnum rid.data = []
  · simp only [build_table_name, h]
    decide
  · have h1 : build_table_name rid ""
        = String.mk ((lowerL (stripNonAlnum rid.data)).take 60) := by
      simp [build_table_name, h]
    set m := (lowerL (stripNonAlnum rid.data)).take 60 with hm
    have hm_alnum : ∀ c ∈ m, isPyAlnum c = true := by
      intro c hc
      have hc' : c ∈ lowerL (stripNonAlnum rid.data) := List.take_subset _ _ hc
      rcases List.mem_map.mp hc' with ⟨c0, hc0, rfl⟩
      exact isPyAlnum_asciiLower c0 (List.mem_filter.mp hc0).2
    have hm_strip : stripNonAlnum m = m := List.filter_eq_self.mpr hm_alnum
    have hm_ne : m ≠ [] := by
      intro hnil
      rcases List.take_eq_nil_iff.mp hnil with h60 | hmap
      · exact absurd h60 (by norm_num)
      · exact h (by simpa [lowerL] using hmap)
    have hlow : lowerL m = m := map_eq_self_of _ _ (fun c hc => by
      rcases List.mem_map.mp (List.take_subset _ _ hc) with ⟨c0, _, rfl⟩
      exact asciiLower_idem c0)
    have hlen : m.length ≤ 60 := by
      rw [hm]; simp [List.length_take]
    rw [h1]
    simp only [build_table_name]
    simp [hm_strip, hm_ne, hlow, List.take_of_length_le hlen]

theorem build_table_name_ident (rid : String) :
    identCore (build_table_name rid "vector_").data = true := by
  by_cases h : stripNonAlnum rid.data = []
  · simp only [build_table_name, h]
    decide
  · have hv : List.map asciiLower "vector_".data = "vector_".data := by decide
    have hdata : (build_table_name rid "vector_").data
        = "vector_".data ++ (lowerL (stripNonAlnum rid.data)).take 53 := by
      simp only [build_table_name, h, if_neg, lowerL, List.map_append,
        List.take_append_eq_append_take, hv]
      norm_num
    rw [hdata]
    apply identCore_append
    · decide
    · rw [List.all_eq_true]
      intro x hx
      rcases List.mem_map.mp (List.take_subset _ _ hx) with ⟨c0, hc0, rfl⟩
      exact isIdentContC_asciiLower c0 (List.mem_filter.mp hc0).2

/-! ### POSIX path primitives (Claim C1)

`_extract_and_validate` (logic.py lines 141-158) validates *every* archive
member before `zf.extractall` writes anything: it computes
`os.path.normpath(member.filename)` and raises when that path starts with
`".."` or is absolute, and additionally raises when the absolute
destination path does not start with the absolute scratch directory.
Paths are embedded as `List Char`; `os.path.normpath`, `os.path.isabs`,
`os.path.join`, `os.path.abspath` and `str.startswith` are given below
with `posixpath`'s semantics (the POSIX special case that preserves
exactly two leading slashes is elided; it changes neither of the two
checks). -/

/-- `str.startswith`. -/
def listStartsWith : List Char → List Char → Bool
  | _, [] => true
  | [], _ :: _ => false
  | c :: cs, p :: ps => c == p && listStartsWith cs ps

/-- `str.split(sep)` for a one-character separator (keeps empty parts,
like Python). -/
def splitOnCharL (sep : Char) : List Char → List (List Char)
  | [] => [[]]
  | c :: rest =>
    match splitOnCharL sep rest with
    | [] => [[]]
    | g :: gs => if c == sep then [] :: g :: gs else (c :: g) :: gs

/-- `"/".join(comps)`. -/
def joinSlash : List (List Char) → List Char
  | [] => []
  | [c] => c
  | c :: rest => c ++ '/' :: joinSlash rest

/-- `os.path.isabs` (POSIX): starts with `'/'`. -/
def pyIsAbsL (p : List Char) : Bool := listStartsWith p ['/']

/-- The component loop of `posixpath.normpath`: skip `""` and `"."`;
append `".."` when the path is relative and the stack is empty or the top
already is `".."`; otherwise pop (or, on an absolute path with empty
stack, drop the `".."`). -/
def normComps (isAbs : Bool) : List (List Char) → List (List Char) → List (List Char)
  | stack, [] => stack.reverse
  | stack, comp :: rest =>
    if comp = [] ∨ comp = ['.'] then normComps isAbs stack rest
    else if comp = ['.', '.'] then
      match stack with
      | [] => if isAbs then normComps isAbs [] rest else normComps isAbs [comp] rest
      | top :: s =>
        if top = ['.', '.'] then normComps isAbs (comp :: top :: s) rest
        else normComps isAbs s rest
    else normComps isAbs (comp :: stack) rest

/-- `posixpath.normpath`. -/
def normpathL (p : List Char) : List Char :=
  if p = [] then ['.']
  else
    let isAbs := pyIsAbsL p
    let ncomps := normComps isAbs [] (splitOnCharL '/' p)
    let joined := joinSlash ncomps
    let path2 := if isAbs then '/' :: joined else joined
    if path2 = [] then ['.'] else path2

/-- `posixpath.join` for two arguments. -/
def pyJoinL (a b : List Char) : List Char :=
  if pyIsAbsL b then b
  else if a = [] ∨ a.getLast? = some '/' then a ++ b
  else a ++ '/' :: b

/-- `os.path.abspath` relative to the (absolute) working directory. -/
def abspathL (cwd p : List Char) : List Char := normpathL (pyJoinL cwd p)

/-- Claim-side predicate: the entry's normalized relative path escapes the
extraction root — it is an absolute path, or its normalization starts with
a `".."` parent-traversal component. -/
def escapesRootL (p : List Char) : Bool :=
  pyIsAbsL p || (normComps (pyIsAbsL p) [] (splitOnCharL '/' p)).head? == some ['.', '.']

/-- The per-member validation of `_extract_and_validate` (logic.py lines
143-150): `some message` when the member is rejected, `none` when it
passes both checks. -/
def entryRejected (cwd target fname : List Char) : Option String :=
  let memberPath := normpathL fname
  if listStartsWith memberPath ['.', '.'] || pyIsAbsL memberPath then
    some "Invalid ZIP: contains unsafe paths."
  else
    let destPath := abspathL cwd (pyJoinL target memberPath)
    let baseDir := abspathL cwd target
    if listStartsWith destPath baseDir = false then
      some "Invalid ZIP: Zip Slip attempt detected."
    else none

/-- The extraction stage of `_extract_and_validate`: the `for member in
zf.infolist()` loop raises at the first unsafe member, and only after the
whole loop passes does `zf.extractall(target_dir)` write the entries. -/
def extract_and_validate (cwd target : List Char) (names : List (List Char)) :
    Except String (List (List Char)) :=
  match names.findSome? (entryRejected cwd target) with
  | some msg => Except.error msg
  | none => Except.ok (names.map (fun n => pyJoinL target n))

/-- The files written to disk by an extraction outcome: none at all when
validation failed. -/
def writtenFiles : Except String (List (List Char)) → List (List Char)
  | Except.error _ => []
  | Except.ok l => l

theorem normpathL_isAbs (p : List Char) (h : pyIsAbsL p = true) :
    pyIsAbsL (normpathL p) = true := by
  have hne : p ≠ [] := by
    intro he; subst he; exact absurd h (by decide)
  unfold normpathL
  rw [if_neg hne]
  simp only [h, if_true]
  rw [if_neg (by simp)]
  simp [pyIsAbsL, listStartsWith]

theorem listStartsWith_joinSlash_dotdot (t : List (List Char)) :
    listStartsWith (joinSlash (['.', '.'] :: t)) ['.', '.'] = true := by
  cases t with
  | nil => decide
  | cons a r => simp [joinSlash, listStartsWith]

theorem joinSlash_dotdot_ne_nil (t : List (List Char)) :
    joinSlash (['.', '.'] :: t) ≠ [] := by
  cases t with
  | nil => decide
  | cons a r => simp [joinSlash]

/-- Every escaping member fails the source's first check. -/
theorem escape_rejected (p : List Char) (h : escapesRootL p = true) :
    (listStartsWith (normpathL p) ['.', '.'] || pyIsAbsL (normpathL p)) = true := by
  cases habs : pyIsAbsL p with
  | true => rw [normpathL_isAbs p habs]; simp
  | false =>
    rw [escapesRootL, habs] at h
    simp only [Bool.false_or, beq_iff_eq] at h
    have hne : p ≠ [] := by
      intro he; subst he; exact absurd h (by decide)
    obtain ⟨t, ht⟩ : ∃ t, normComps false [] (splitOnCharL '/' p) = ['.', '.'] :: t := by
      cases hnc : (normComps false [] (splitOnCharL '/' p)) with
      | nil => rw [hnc] at h; simp at h
      | cons a r =>
        rw [hnc] at h
        simp only [List.head?_cons, Option.some.injEq] at h
        exact ⟨r, by rw [h]⟩
    unfold normpathL
    rw [if_neg hne]
    simp only [habs, ht, Bool.false_eq_true, if_false]
    rw [if_neg (joinSlash_dotdot_ne_nil t)]
    rw [listStartsWith_joinSlash_dotdot t]
    simp

/-- Claim C1: for every ZIP member whose normalized relative path escapes
the extraction root (parent traversal or absolute path), extraction fails
with the unsafe-archive error, and — because the validation loop runs
before `extractall` — no file at all is written, in particular none
outside the scratch directory. -/
theorem extract_rejects_escaping_entries
    (cwd target : List Char) (names : List (List Char)) (n : List Char)
    (hmem : n ∈ names) (hesc : escapesRootL n = true) :
    (∃ msg, extract_and_validate cwd target names = Except.error msg)
    ∧ writtenFiles (extract_and_validate cwd target names) = [] := by
  have hcheck := escape_rejected n hesc
  have hu : ∃ m, entryRejected cwd target n = some m := by
    unfold entryRejected
    rw [if_pos hcheck]
    exact ⟨_, rfl⟩
  have hfind : names.findSome? (entryRejected cwd target) ≠ none := by
    intro hn
    rw [List.findSome?_eq_none_iff] at hn
    obtain ⟨m, hm⟩ := hu
    exact absurd (hn n hmem) (by rw [hm]; simp)
  obtain ⟨msg, hmsg⟩ := Option.ne_none_iff_exists'.mp hfind
  unfold extract_and_validate
  rw [hmsg]
  exact ⟨⟨msg, rfl⟩, rfl⟩

/-- Witness for `extract_rejects_escaping_entries`: the spec's own example
entry `"../../etc/passwd"` makes extraction fail with no file written. -/
theorem extract_rejects_escaping_entries_witness :
    (∃ msg, extract_and_validate "/work".data "/tmp/shptoapi_x".data
        ["../../etc/passwd".data] = Except.error msg)
    ∧ writtenFiles (extract_and_validate "/work".data "/tmp/shptoapi_x".data
        ["../../etc/passwd".data]) = [] :=
  extract_rejects_escaping_entries "/work".data "/tmp/shptoapi_x".data
    ["../../etc/passwd".data] "../../etc/passwd".data (by decide) (by decide)

/-- Claim C5 (amended): with an *empty* prefix the table-name derivation
is idempotent under re-application to its own output (with a non-empty
prefix such as the default `"vector_"` it is not — see the
counterexample); for every resource identifier the derived name with the
default prefix has length at most 60 and matches the identifier pattern;
`"abc-123!!"` with prefix `"vector_"` yields `"vector_abc123"`. -/
theorem build_table_name_spec :
    (∀ rid : String, build_table_name (build_table_name rid "") "" = build_table_name rid "")
    ∧ (∀ rid : String, (build_table_name rid "vector_").length ≤ 60
        ∧ identCore (build_table_name rid "vector_").data = true)
    ∧ build_table_name "abc-123!!" "vector_" = "vector_abc123" :=
  ⟨build_table_name_empty_pre_idem,
   fun rid => ⟨build_table_name_len rid "vector_", build_table_name_ident rid⟩,
   by decide⟩

/-! ### Claim C3 — SRID detection (logic.py `_detect_srid`)

The source line is
`re.search(r"AUTHORITY\\[\"EPSG\",\"(\\d+)\"\\]", content, re.IGNORECASE)`.
Because the pattern is a *raw* string, each `\\` is a regex-level escaped
backslash, so the compiled pattern is: the literal `AUTHORITY`, a literal
backslash, then a character class holding the characters
`" E P S G , ( \ d + )` — and it contains no capture group at all.  The
embedding below models that compiled pattern; `match.group(1)` on a
pattern without groups raises `IndexError`, modelled as a distinct
outcome. -/

/-- Case-insensitive character comparison (`re.IGNORECASE`, ASCII). -/
def ciEq (a b : Char) : Bool := asciiLower a == asciiLower b

/-- Match a literal character sequence case-insensitively at the head of
the input, returning the rest of the input on success. -/
def matchLiteralCI : List Char → List Char → Option (List Char)
  | [], l => some l
  | _ :: _, [] => none
  | p :: ps, c :: cs => if ciEq p c then matchLiteralCI ps cs else none

/-- The members of the character class the source's pattern compiles to
(`[\"EPSG\",\"(\\d+)\"\\]` read as a regex class). -/
def sourceClassChars : List Char := ['"', 'E', 'P', 'S', 'G', ',', '(', '\\', 'd', '+', ')']

/-- Does the source's compiled pattern match at this position: literal
`AUTHORITY` (case-insensitive), a literal backslash, one class member. -/
def sourcePatternAt (l : List Char) : Bool :=
  match matchLiteralCI "AUTHORITY\\".data l with
  | none => false
  | some rest =>
    match rest with
    | [] => false
    | c :: _ => sourceClassChars.any (fun k => ciEq k c)

/-- `re.search` with the source's compiled pattern: does it match at any
position. -/
def sourceSearch : List Char → Bool
  | [] => sourcePatternAt []
  | c :: rest => sourcePatternAt (c :: rest) || sourceSearch rest

/-- Outcome of `_detect_srid`. -/
inductive SridOutcome
  | regexNoGroup
  | code (n : Nat)
  | unknownCrs
deriving DecidableEq

/-- `logic._detect_srid` on the given `.prj` content.  The pyproj
fallback (`CRS.from_wkt(content).to_epsg()`) is an external library call,
passed in as `pyprojEpsg` (`none` = it raised or returned no code).  If
the source's regex matches, `int(match.group(1))` raises `IndexError`
(the pattern has no group 1) — outcome `regexNoGroup`; otherwise the
fallback decides, and with no fallback result the function raises
`ShpToApiError` (`unknownCrs`). -/
def detect_srid (content : String) (pyprojEpsg : Option Nat) : SridOutcome :=
  if sourceSearch content.data then SridOutcome.regexNoGroup
  else
    match pyprojEpsg with
    | some e => SridOutcome.code e
    | none => SridOutcome.unknownCrs

/-- Numeric value of a digit string. -/
def digitsToNat (l : List Char) : Nat := l.foldl (fun acc c => acc * 10 + (c.toNat - 48)) 0

/-- Modelled from the spec: the *intended* primary extraction — regex-match
an `AUTHORITY["EPSG","<code>"]` token (case-insensitive) at this position
and return the code. -/
def specAuthorityAt (l : List Char) : Option Nat :=
  (matchLiteralCI "AUTHORITY[\"EPSG\",\"".data l).bind fun rest =>
    let ds := rest.takeWhile isPyDigit
    let rest2 := rest.dropWhile isPyDigit
    if ds.isEmpty then none
    else
      match rest2 with
      | '"' :: ']' :: _ => some (digitsToNat ds)
      | _ => none

/-- Modelled from the spec: search the whole text for the first
`AUTHORITY["EPSG","<code>"]` token. -/
def specAuthoritySearch : List Char → Option Nat
  | [] => specAuthorityAt []
  | c :: rest => (specAuthorityAt (c :: rest)).orElse (fun _ => specAuthoritySearch rest)

/-- A `.prj` content containing the claim's `AUTHORITY["EPSG","3857"]`
token. -/
def prjContent3857 : String := "PROJCS[\"WGS 84\",AUTHORITY[\"EPSG\",\"3857\"]]"

/-- Claim C3 (code bug): on content containing `AUTHORITY["EPSG","3857"]`
the source's compiled regex does not match at all, so the primary
extraction never returns 3857 (the spec-intended extraction does); with
no pyproj fallback the call ends in `UnknownCrs` instead of 3857.  The
last conjunct shows what the buggy pattern really matches — a literal
backslash followed by one class character — on which `match.group(1)`
would raise `IndexError`, the pattern having no capture group. -/
theorem detect_srid_primary_regex_broken :
    sourceSearch prjContent3857.data = false
    ∧ detect_srid prjContent3857 none = SridOutcome.unknownCrs
    ∧ specAuthoritySearch prjContent3857.data = some 3857
    ∧ sourceSearch "AUTHORITY\\E".data = true
    ∧ detect_srid "AUTHORITY\\E" (some 4326) = SridOutcome.regexNoGroup := by
  refine ⟨by decide, ?_, by decide, by decide, ?_⟩
  · unfold detect_srid
    rw [if_neg (by decide)]
  · unfold detect_srid
    rw [if_pos (by decide)]

/-! ### Extent parsing (db.py `parse_extent`) — Claim C8

`float()` is an external conversion (Python floats are IEEE doubles);
it is passed in as an oracle `pf : List Char → Option F` over an abstract
value type, `none` modelling `ValueError`. -/

/-- whitespace for `str.strip` / no-argument `str.split` (Python's set:
space, tab, newline, carriage return, vertical tab, form feed). -/
def isPySpace (c : Char) : Bool :=
  c == ' ' || c == '\t' || c == '\n' || c == '\r' || c.toNat = 11 || c.toNat = 12

/-- `str.strip()`. -/
def pyStrip (l : List Char) : List Char :=
  ((l.dropWhile isPySpace).reverse.dropWhile isPySpace).reverse

/-- Fuel-based scanner for `removeAll` (the fuel is an upper bound on the
input length, so it never runs out; structural recursion keeps the
function kernel-reducible). -/
def removeAllFuel (pat : List Char) : Nat → List Char → List Char
  | _, [] => []
  | 0, l => l
  | fuel + 1, c :: rest =>
    if pat ≠ [] ∧ listStartsWith (c :: rest) pat = true then
      removeAllFuel pat fuel ((c :: rest).drop pat.length)
    else c :: removeAllFuel pat fuel rest

/-- `str.replace(pat, "")`: remove every (left-to-right, non-overlapping)
occurrence of `pat`. -/
def removeAll (pat : List Char) (l : List Char) : List Char :=
  removeAllFuel pat l.length l

/-- Accumulator loop for no-argument `str.split`. -/
def splitWsAux : List Char → List Char → List (List Char)
  | acc, [] => if acc = [] then [] else [acc.reverse]
  | acc, c :: rest =>
    if isPySpace c then
      if acc = [] then splitWsAux [] rest
      else acc.reverse :: splitWsAux [] rest
    else splitWsAux (c :: acc) rest

/-- `str.split()` — split on whitespace runs, no empty parts. -/
def splitWs (l : List Char) : List (List Char) := splitWsAux [] l

/-- `db.parse_extent(extent)`: `None`/empty text gives `None`; otherwise
strip, delete `"BOX("` and `")"`, split once on `","` into two pairs,
split each pair on whitespace and convert the four tokens; every failure
(wrong number of parts, wrong number of tokens, float conversion error) is
swallowed by the `except` and gives `None`. -/
def parse_extent {F : Type} (pf : List Char → Option F) (extent : Option String) :
    Option (List F) :=
  match extent with
  | none => none
  | some s =>
    if s.data = [] then none
    else
      match splitOnCharL ',' (removeAll ")".data (removeAll "BOX(".data (pyStrip s.data))) with
      | [pair1, pair2] =>
        match splitWs pair1, splitWs pair2 with
        | [a, b], [c, d] =>
          (pf a).bind fun minx => (pf b).bind fun miny =>
          (pf c).bind fun maxx => (pf d).bind fun maxy =>
          some [minx, miny, maxx, maxy]
        | _, _ => none
      | _ => none

/-! ### The spatial store (db.py query layer)

The PostGIS database is modelled as a finite map from full table name to
the table's observable content: its row count (`COUNT(*)`), its
`ST_Extent` text (`none` = SQL `NULL`) and its sampled geometry type.
Each `db.py` operation sanitizes its identifiers first and mirrors the
SQL error (wrapped into `ShpToApiError` by the source) when the relation
does not exist. -/

structure TableData where
  rows : Nat
  extentText : Option String
  geomType : Option String
deriving DecidableEq

structure Db where
  tables : List (String × TableData)
deriving DecidableEq

def dbLookup (db : Db) (full : String) : Option TableData :=
  (db.tables.find? (fun p => p.1 == full)).map (fun p => p.2)

/-- Create or replace a table (`ogr2ogr -overwrite` semantics). -/
def dbSet (db : Db) (full : String) (td : TableData) : Db :=
  ⟨(full, td) :: db.tables.filter (fun p => p.1 != full)⟩

def dbDrop (db : Db) (full : String) : Db :=
  ⟨db.tables.filter (fun p => p.1 != full)⟩

/-- `db.table_exists(schema, table)`: sanitize, then `to_regclass`. -/
def table_exists (db : Db) (schema : Option String) (table : String) :
    Except String Bool :=
  match build_full_table schema table with
  | Except.error e => Except.error e
  | Except.ok full => Except.ok (dbLookup db full).isSome

/-- `db.drop_table(schema, table)`: sanitize, then `DROP TABLE IF EXISTS`. -/
def drop_table (db : Db) (schema : Option String) (table : String) :
    Except String Db :=
  match build_full_table schema table with
  | Except.error e => Except.error e
  | Except.ok full => Except.ok (dbDrop db full)

structure MetaRow (F : Type) where
  bbox : Option (List F)
  geom_type : Option String
  feature_count : Nat
deriving DecidableEq

/-- `db.fetch_metadata(schema, table)`: sanitize, run the three queries
(extent, geometry type, count) — a database error (e.g. missing relation)
raises `ShpToApiError` — then parse the extent text; a malformed extent
only makes `bbox` `None`. -/
def fetch_metadata {F : Type} (pf : List Char → Option F) (db : Db)
    (schema : Option String) (table : String) : Except String (MetaRow F) :=
  match build_full_table schema table with
  | Except.error e => Except.error e
  | Except.ok full =>
    match dbLookup db full with
    | none => Except.error "Could not read spatial metadata: relation does not exist"
    | some td =>
      Except.ok { bbox := parse_extent pf td.extentText
                , geom_type := td.geomType
                , feature_count := td.rows }

/-- `db.enforce_srid`: sanitize, `ALTER TABLE ... ST_SetSRID`.  The model
tracks only existence/row count, so on a present table this is the
identity; on a missing one it mirrors the SQL error. -/
def enforce_srid (db : Db) (schema : Option String) (table : String) (srid : Nat) :
    Except String Db :=
  match build_full_table schema table with
  | Except.error e => Except.error e
  | Except.ok full =>
    match dbLookup db full with
    | none => Except.error "Could not alter table: relation does not exist"
    | some _ => Except.ok db

/-- `db.ensure_spatial_index`: sanitize the table and the derived index
name, `CREATE INDEX IF NOT EXISTS` + `ANALYZE` — identity on the tracked
state. -/
def ensure_spatial_index (db : Db) (schema : Option String) (table : String) :
    Except String Db :=
  match build_full_table schema table with
  | Except.error e => Except.error e
  | Except.ok full =>
    match safe_identifier (table ++ "_geom_gist") "index" with
    | Except.error e => Except.error e
    | Except.ok _ =>
      match dbLookup db full with
      | none => Except.error "Could not index table: relation does not exist"
      | some _ => Except.ok db

/-! ### The ingestion pipeline after extraction (logic.py `process_resource`) -/

/-- Final metadata dict of `process_resource` (after the updates of lines
65-73). -/
structure Meta (F : Type) where
  bbox : Option (List F)
  geom_type : Option String
  feature_count : Nat
  srid : Nat
  vector_table : String
  vector_schema : String
deriving DecidableEq

/-- The pre-load gate of line 44: `feature_count is not None and
feature_count > max_features`. -/
def preCountExceeds (preCount : Option Nat) (maxFeatures : Nat) : Bool :=
  match preCount with
  | some n => decide (maxFeatures < n)
  | none => false

/-- `logic.process_resource` lines 43-75, after extraction and SRID
detection succeeded: `preCount` is `_feature_count`'s result (`none` when
`ogrinfo` is unavailable or its output unparseable), `loaded` is the
table content `ogr2ogr` materializes (`-overwrite` replaces any previous
table of the same name; `_load_to_postgis` sanitizes the target name
before invoking it).  Returns the database state after the call and the
call's outcome. -/
def process_core {F : Type} (pf : List Char → Option F) (schema : String) (table : String)
    (maxFeatures : Nat) (preCount : Option Nat) (loaded : TableData) (db : Db) :
    Db × Except String (Meta F) :=
  if preCountExceeds preCount maxFeatures then
    (db, Except.error "Shapefile exceeds the feature limit")
  else
    match build_full_table (some schema) table with
    | Except.error e => (db, Except.error e)
    | Except.ok full =>
      match enforce_srid (dbSet db full loaded) (some schema) table 4326 with
      | Except.error e => (dbSet db full loaded, Except.error e)
      | Except.ok db2 =>
        match ensure_spatial_index db2 (some schema) table with
        | Except.error e => (db2, Except.error e)
        | Except.ok db3 =>
          match fetch_metadata pf db3 (some schema) table with
          | Except.error e => (db3, Except.error e)
          | Except.ok m =>
            if m.feature_count ≠ 0 ∧ maxFeatures < m.feature_count then
              match drop_table db3 (some schema) table with
              | Except.error e => (db3, Except.error e)
              | Except.ok db4 =>
                (db4, Except.error "Resulting table exceeds the allowed feature limit")
            else
              (db3, Except.ok { bbox := m.bbox, geom_type := m.geom_type
                              , feature_count := match preCount with
                                  | some n => n
                                  | none => m.feature_count
                              , srid := 4326
                              , vector_table := full, vector_schema := schema })

theorem dbLookup_dbSet_self (db : Db) (full : String) (td : TableData) :
    dbLookup (dbSet db full td) full = some td := by
  simp [dbLookup, dbSet, List.find?]

theorem dbLookup_dbDrop_self (db : Db) (full : String) :
    dbLookup (dbDrop db full) full = none := by
  have h : List.find? (fun p => p.1 == full) (List.filter (fun p => p.1 != full) db.tables)
      = none :=
    List.find?_eq_none.mpr (fun x hx => by simpa using (List.mem_filter.mp hx).2)
  simp [dbLookup, dbDrop, h]

theorem identCore_ne_nil (l : List Char) (h : identCore l = true) : l ≠ [] := by
  intro he; subst he; exact absurd h (by decide)

/-- A name in the identifier language is accepted by the sanitizer. -/
theorem safe_identifier_ok_of_identCore (v k : String) (h : identCore v.data = true) :
    safe_identifier v k = Except.ok v := by
  unfold safe_identifier
  rw [if_neg]
  push_neg
  constructor
  · intro he
    subst he
    exact absurd h (by decide)
  · simp [safeNameMatch, h]

/-- Claim C4: when the post-load database feature count exceeds the
configured ceiling, `process_resource` drops the newly created table and
fails, so a subsequent `table_exists` check reports `false`.  The
hypotheses say the run reached the load step: the pre-load gate did not
fire, the target name sanitizes, and the table name is in the identifier
language (as every `_build_table_name` output with the default prefix
is — `build_table_name_spec`). -/
theorem over_limit_table_dropped {F : Type} (pf : List Char → Option F)
    (schema table : String) (maxFeatures : Nat) (preCount : Option Nat)
    (loaded : TableData) (db : Db) (full : String)
    (hpre : preCountExceeds preCount maxFeatures = false)
    (hname : build_full_table (some schema) table = Except.ok full)
    (hident : identCore table.data = true)
    (hover : maxFeatures < loaded.rows) :
    (∃ e, (process_core pf schema table maxFeatures preCount loaded db).2 = Except.error e)
    ∧ table_exists (process_core pf schema table maxFeatures preCount loaded db).1
        (some schema) table = Except.ok false := by
  have hidx : safe_identifier (table ++ "_geom_gist") "index"
      = Except.ok (table ++ "_geom_gist") := by
    apply safe_identifier_ok_of_identCore
    rw [String.data_append]
    exact identCore_append _ _ hident (by decide)
  have henf : enforce_srid (dbSet db full loaded) (some schema) table 4326
      = Except.ok (dbSet db full loaded) := by
    unfold enforce_srid
    rw [hname]
    simp [dbLookup_dbSet_self]
  have hens : ensure_spatial_index (dbSet db full loaded) (some schema) table
      = Except.ok (dbSet db full loaded) := by
    unfold ensure_spatial_index
    rw [hname]
    simp [hidx, dbLookup_dbSet_self]
  have hfetch : fetch_metadata pf (dbSet db full loaded) (some schema) table
      = Except.ok { bbox := parse_extent pf loaded.extentText
                  , geom_type := loaded.geomType, feature_count := loaded.rows } := by
    unfold fetch_metadata
    rw [hname]
    simp [dbLookup_dbSet_self]
  have hdrop : drop_table (dbSet db full loaded) (some schema) table
      = Except.ok (dbDrop (dbSet db full loaded) full) := by
    unfold drop_table
    rw [hname]
  have hproc : process_core pf schema table maxFeatures preCount loaded db
      = (dbDrop (dbSet db full loaded) full,
         Except.error "Resulting table exceeds the allowed feature limit") := by
    unfold process_core
    simp only [hpre, Bool.false_eq_true, if_false, hname, henf, hens, hfetch]
    rw [if_pos ⟨by omega, hover⟩]
    simp only [hdrop]
  rw [hproc]
  refine ⟨⟨_, rfl⟩, ?_⟩
  unfold table_exists
  rw [hname]
  simp [dbLookup_dbDrop_self]

/-- Witness for `over_limit_table_dropped`: a 7-row load against a
ceiling of 5. -/
theorem over_limit_table_dropped_witness :
    (∃ e, (process_core (fun _ => (none : Option String)) "public" "vector_r1" 5 none
        ⟨7, none, none⟩ ⟨[]⟩).2 = Except.error e)
    ∧ table_exists (process_core (fun _ => (none : Option String)) "public" "vector_r1" 5 none
        ⟨7, none, none⟩ ⟨[]⟩).1 (some "public") "vector_r1" = Except.ok false :=
  over_limit_table_dropped (fun _ => none) "public" "vector_r1" 5 none
    ⟨7, none, none⟩ ⟨[]⟩ "public.vector_r1" (by decide) rfl (by decide) (by decide)

/-- Claim C6: for every successful run, the recorded feature count is the
pre-load estimate whenever one was available (it overwrites the post-load
database count), and the post-load database count only when the estimate
was unavailable. -/
theorem enforce_srid_ok_eq (db db2 : Db) (schema : Option String) (table : String)
    (srid : Nat) (h : enforce_srid db schema table srid = Except.ok db2) : db2 = db := by
  unfold enforce_srid at h
  split at h
  · exact absurd h (by simp)
  · split at h
    · exact absurd h (by simp)
    · exact (Except.ok.inj h).symm

theorem ensure_spatial_index_ok_eq (db db2 : Db) (schema : Option String) (table : String)
    (h : ensure_spatial_index db schema table = Except.ok db2) : db2 = db := by
  unfold ensure_spatial_index at h
  split at h
  · exact absurd h (by simp)
  · split at h
    · exact absurd h (by simp)
    · split at h
      · exact absurd h (by simp)
      · exact (Except.ok.inj h).symm

theorem fetch_metadata_count {F : Type} (pf : List Char → Option F) (db : Db)
    (schema : Option String) (table full : String) (mr : MetaRow F)
    (hfull : build_full_table schema table = Except.ok full)
    (h : fetch_metadata pf db schema table = Except.ok mr) :
    ∃ td, dbLookup db full = some td ∧ mr.feature_count = td.rows := by
  unfold fetch_metadata at h
  split at h
  · exact absurd h (by simp)
  · rename_i full2 hfull2
    rw [hfull] at hfull2
    have h3 : full = full2 := Except.ok.inj hfull2
    subst h3
    split at h
    · exact absurd h (by simp)
    · rename_i td htd
      exact ⟨td, htd, by rw [← Except.ok.inj h]⟩

theorem metadata_prefers_preload_count {F : Type} (pf : List Char → Option F)
    (schema table : String) (maxFeatures : Nat) (preCount : Option Nat)
    (loaded : TableData) (db : Db) (db' : Db) (m : Meta F)
    (h : process_core pf schema table maxFeatures preCount loaded db = (db', Except.ok m)) :
    (∀ n, preCount = some n → m.feature_count = n)
    ∧ (preCount = none → m.feature_count = loaded.rows) := by
  cases preCount with
  | some n =>
    refine ⟨fun n' hn' => ?_, fun hn => by simp at hn⟩
    have hn2 : n' = n := (Option.some.inj hn').symm
    subst hn2
    unfold process_core at h
    split at h
    · simp [Prod.ext_iff] at h
    · split at h
      · simp [Prod.ext_iff] at h
      · rename_i full hfull
        split at h
        · simp [Prod.ext_iff] at h
        · rename_i db2 henf
          split at h
          · simp [Prod.ext_iff] at h
          · rename_i db3 hens
            split at h
            · simp [Prod.ext_iff] at h
            · rename_i mr hfetch
              split at h
              · split at h
                · simp [Prod.ext_iff] at h
                · simp [Prod.ext_iff] at h
              · simp only [Prod.mk.injEq, Except.ok.injEq] at h
                obtain ⟨hdb, hm⟩ := h
                subst hm
                rfl
  | none =>
    refine ⟨fun n' hn' => by simp at hn', fun _ => ?_⟩
    unfold process_core at h
    split at h
    · simp [Prod.ext_iff] at h
    · split at h
      · simp [Prod.ext_iff] at h
      · rename_i full hfull
        split at h
        · simp [Prod.ext_iff] at h
        · rename_i db2 henf
          split at h
          · simp [Prod.ext_iff] at h
          · rename_i db3 hens
            split at h
            · simp [Prod.ext_iff] at h
            · rename_i mr hfetch
              split at h
              · split at h
                · simp [Prod.ext_iff] at h
                · simp [Prod.ext_iff] at h
              · have hdb2 : db2 = dbSet db full loaded :=
                  enforce_srid_ok_eq _ _ _ _ _ henf
                have hdb3 : db3 = db2 := ensure_spatial_index_ok_eq _ _ _ _ hens
                subst hdb2
                subst hdb3
                obtain ⟨td, hlk, hcnt⟩ :=
                  fetch_metadata_count pf _ (some schema) table full mr hfull hfetch
                rw [dbLookup_dbSet_self] at hlk
                have htd : td = loaded := (Option.some.inj hlk).symm
                subst htd
                simp only [Prod.mk.injEq, Except.ok.injEq] at h
                obtain ⟨hdb, hm⟩ := h
                subst hm
                simpa using hcnt

/-- Witness for `metadata_prefers_preload_count`: with pre-load estimate 3
and a 2-row table, the recorded count is 3. -/
theorem metadata_prefers_preload_count_witness :
    (({ bbox := none, geom_type := none, feature_count := 3, srid := 4326
      , vector_table := "public.vector_r1", vector_schema := "public" } : Meta String).feature_count
      = 3) :=
  (metadata_prefers_preload_count (fun _ => none) "public" "vector_r1" 5 (some 3)
    ⟨2, none, none⟩ ⟨[]⟩ _ _ rfl).1 3 rfl

/-! ### Claim C8 -/

theorem bind4_shape {F : Type} (oa ob oc od : Option F) :
    ((oa.bind fun minx => ob.bind fun miny => oc.bind fun maxx => od.bind fun maxy =>
        some [minx, miny, maxx, maxy]) = none)
    ∨ ∃ a b c d,
        (oa.bind fun minx => ob.bind fun miny => oc.bind fun maxx => od.bind fun maxy =>
          some [minx, miny, maxx, maxy]) = some [a, b, c, d] := by
  rcases oa with _ | a
  · exact Or.inl rfl
  rcases ob with _ | b
  · exact Or.inl rfl
  rcases oc with _ | c
  · exact Or.inl rfl
  rcases od with _ | d
  · exact Or.inl rfl
  exact Or.inr ⟨a, b, c, d, rfl⟩

/-- Claim C8: the extent parser is a total function that returns either
the four converted bound values or `none` — in particular on well-formed
`BOX(minx miny,maxx maxy)` text (with the float conversions passed in as
the oracle `pf`) it returns the four floats in order, and a malformed or
absent extent makes `fetch_metadata` succeed with `bbox = none` rather
than fail. -/
theorem parse_extent_spec :
    (∀ (F : Type) (pf : List Char → Option F) (ext : Option String),
        parse_extent pf ext = none
        ∨ ∃ a b c d, parse_extent pf ext = some [a, b, c, d])
    ∧ (∀ (F : Type) (pf : List Char → Option F) (va vb vc vd : F),
        pf "1.5".data = some va → pf "2.5".data = some vb →
        pf "-3.5".data = some vc → pf "4.5".data = some vd →
        parse_extent pf (some "BOX(1.5 2.5,-3.5 4.5)") = some [va, vb, vc, vd])
    ∧ (∀ (F : Type) (pf : List Char → Option F) (db : Db) (schema : Option String)
        (table full : String) (td : TableData),
        build_full_table schema table = Except.ok full →
        dbLookup db full = some td →
        parse_extent pf td.extentText = none →
        fetch_metadata pf db schema table
          = Except.ok { bbox := none, geom_type := td.geomType
                      , feature_count := td.rows }) := by
  refine ⟨?_, ?_, ?_⟩
  · intro F pf ext
    unfold parse_extent
    split
    · exact Or.inl rfl
    · split
      · exact Or.inl rfl
      · split
        · split
          · apply bind4_shape
          · exact Or.inl rfl
        · exact Or.inl rfl
  · intro F pf va vb vc vd ha hb hc hd
    have hb1 : removeAll ")".data (removeAll "BOX(".data
        (pyStrip "BOX(1.5 2.5,-3.5 4.5)".data)) = "1.5 2.5,-3.5 4.5".data := by decide
    have hb2 : splitOnCharL ',' "1.5 2.5,-3.5 4.5".data
        = ["1.5 2.5".data, "-3.5 4.5".data] := by decide
    have hb3 : splitWs "1.5 2.5".data = ["1.5".data, "2.5".data] := by decide
    have hb4 : splitWs "-3.5 4.5".data = ["-3.5".data, "4.5".data] := by decide
    simp only [parse_extent]
    rw [if_neg (by decide)]
    simp only [hb1, hb2, hb3, hb4]
    rw [ha, hb, hc, hd]
    simp
  · intro F pf db schema table full td hfull hlk hpe
    unfold fetch_metadata
    rw [hfull]
    simp [hlk, hpe]

/-- Witness for `parse_extent_spec`: with the identity token oracle, the
well-formed example parses to its four tokens, and a malformed extent
text (`"not a box"`) yields a successful metadata fetch with `bbox =
none`. -/
theorem parse_extent_spec_witness :
    parse_extent (fun t => some t) (some "BOX(1.5 2.5,-3.5 4.5)")
      = some ["1.5".data, "2.5".data, "-3.5".data, "4.5".data]
    ∧ fetch_metadata (fun t => (some t : Option (List Char)))
        (Db.mk [("t1", ⟨0, some "not a box", none⟩)]) none "t1"
      = Except.ok { bbox := none, geom_type := none, feature_count := 0 } :=
  ⟨parse_extent_spec.2.1 (List Char) (fun t => some t) _ _ _ _ rfl rfl rfl rfl,
   parse_extent_spec.2.2 (List Char) (fun t => some t)
     (Db.mk [("t1", ⟨0, some "not a box", none⟩)]) none "t1" "t1"
     ⟨0, some "not a box", none⟩ rfl rfl (by decide)⟩

/-! ### Claim C7 — shapefile search (logic.py `_find_shapefile`)

`os.walk` enumerates the extracted tree; the walk (each directory with
its file list, in traversal order) is the input.  For each `.shp` file
(by lower-cased extension) the source checks that the lower-cased
sibling names `base + ext` for all of `REQUIRED_EXTENSIONS` occur among
the lower-cased file names of the same directory, then resolves the
actual sibling names through the `lower_files` dict (later duplicates by
case overwrite earlier ones, hence the `foldl`). -/

/-- `str.endswith`. -/
def pyEndsWithL (s suf : List Char) : Bool := listStartsWith s.reverse suf.reverse

/-- `os.path.splitext(name)[0]` for a bare file name (no separators): the
extension starts at the last dot, except that a leading run of dots
belongs to the root. -/
def splitextRoot (name : List Char) : List Char :=
  let lead := (name.takeWhile (fun c => c == '.')).length
  match (name.drop lead).reverse.findIdx? (fun c => c == '.') with
  | none => name
  | some j => name.take (name.length - 1 - j)

/-- `REQUIRED_EXTENSIONS` (a Python set; only membership is used). -/
def requiredExts : List String := [".shp", ".shx", ".dbf", ".prj"]

/-- One directory of the `os.walk` enumeration. -/
structure WalkDir where
  dirpath : String
  filenames : List String
deriving DecidableEq

/-- The source's per-file test: lower-cased name ends in `.shp` and the
lower-cased expected sibling set is a subset of the lower-cased file
names. -/
def completeShpAt (files : List String) (name : String) : Bool :=
  pyEndsWithL (lowerL name.data) ".shp".data
  && requiredExts.all (fun ext =>
       files.any (fun f => lowerL f.data == lowerL (splitextRoot name.data ++ ext.data)))

/-- `lower_files[key]`: the dict `{f.lower(): f}` keeps the *last* file
with a given lower-casing. -/
def lowerLookup (files : List String) (key : List Char) : Option String :=
  files.foldl (fun acc f => if lowerL f.data == key then some f else acc) none

def pyJoinStr (a b : String) : String := String.mk (pyJoinL a.data b.data)

structure ShpParts where
  shp : String
  shx : String
  dbf : String
  prj : String
deriving DecidableEq

/-- The part-set dict built for a matching `.shp` (logic.py lines
170-175); the lookups cannot fail when `completeShpAt` holds
(`partsFor_isSome`). -/
def partsFor (d : WalkDir) (name : String) : Option ShpParts :=
  (lowerLookup d.filenames (lowerL (splitextRoot name.data ++ ".shx".data))).bind fun sx =>
  (lowerLookup d.filenames (lowerL (splitextRoot name.data ++ ".dbf".data))).bind fun db2 =>
  (lowerLookup d.filenames (lowerL (splitextRoot name.data ++ ".prj".data))).bind fun pj =>
  some ⟨pyJoinStr d.dirpath name, pyJoinStr d.dirpath sx,
        pyJoinStr d.dirpath db2, pyJoinStr d.dirpath pj⟩

/-- `logic._find_shapefile`: first complete part set in walk order. -/
def find_shapefile (walk : List WalkDir) : Option ShpParts :=
  walk.findSome? fun d =>
    d.filenames.findSome? fun name =>
      if completeShpAt d.filenames name then partsFor d name else none

def incompleteMsg : String :=
  "ZIP must include .shp, .shx, .dbf and .prj files sharing the same name."

/-- The tail of `_extract_and_validate`: raise when `_find_shapefile`
returned nothing. -/
def locate_shapefile (walk : List WalkDir) : Except String ShpParts :=
  match find_shapefile walk with
  | none => Except.error incompleteMsg
  | some parts => Except.ok parts

theorem lowerLookup_aux (key : List Char) (files : List String) (acc : Option String)
    (h : files.any (fun f => lowerL f.data == key) = true ∨ acc.isSome = true) :
    (files.foldl (fun a f => if lowerL f.data == key then some f else a) acc).isSome = true := by
  induction files generalizing acc with
  | nil =>
    rcases h with h | h
    · simp at h
    · simpa using h
  | cons f fs ih =>
    simp only [List.foldl_cons]
    apply ih
    by_cases hf : (lowerL f.data == key) = true
    · right
      simp [hf]
    · rcases h with h | h
      · simp only [List.any_cons, Bool.or_eq_true] at h
        rcases h with h | h
        · exact absurd h hf
        · exact Or.inl h
      · right
        simpa [hf] using h

theorem lowerLookup_isSome (files : List String) (key : List Char)
    (h : files.any (fun f => lowerL f.data == key) = true) :
    (lowerLookup files key).isSome = true :=
  lowerLookup_aux key files none (Or.inl h)

theorem partsFor_isSome (d : WalkDir) (name : String)
    (h : completeShpAt d.filenames name = true) :
    ∃ sx db2 pj, partsFor d name
      = some ⟨pyJoinStr d.dirpath name, pyJoinStr d.dirpath sx,
              pyJoinStr d.dirpath db2, pyJoinStr d.dirpath pj⟩ := by
  simp only [completeShpAt, Bool.and_eq_true, List.all_eq_true] at h
  have h1 := lowerLookup_isSome d.filenames
    (lowerL (splitextRoot name.data ++ ".shx".data)) (h.2 ".shx" (by decide))
  have h2 := lowerLookup_isSome d.filenames
    (lowerL (splitextRoot name.data ++ ".dbf".data)) (h.2 ".dbf" (by decide))
  have h3 := lowerLookup_isSome d.filenames
    (lowerL (splitextRoot name.data ++ ".prj".data)) (h.2 ".prj" (by decide))
  obtain ⟨sx, hsx⟩ := Option.isSome_iff_exists.mp h1
  obtain ⟨db2, hdb⟩ := Option.isSome_iff_exists.mp h2
  obtain ⟨pj, hpj⟩ := Option.isSome_iff_exists.mp h3
  exact ⟨sx, db2, pj, by simp [partsFor, hsx, hdb, hpj]⟩

theorem inner_none_of_all_incomplete (d : WalkDir)
    (h : ∀ f ∈ d.filenames, completeShpAt d.filenames f = false) :
    (d.filenames.findSome? fun name =>
      if completeShpAt d.filenames name then partsFor d name else none) = none := by
  rw [List.findSome?_eq_none_iff]
  intro f hf
  rw [h f hf]
  simp

theorem find_shapefile_none_iff (walk : List WalkDir) :
    find_shapefile walk = none
      ↔ ∀ d ∈ walk, ∀ f ∈ d.filenames, completeShpAt d.filenames f = false := by
  unfold find_shapefile
  rw [List.findSome?_eq_none_iff]
  constructor
  · intro h d hd f hf
    by_contra hc
    have hc2 : completeShpAt d.filenames f = true := by
      cases hx : completeShpAt d.filenames f
      · exact absurd hx hc
      · rfl
    obtain ⟨sx, db2, pj, hp⟩ := partsFor_isSome d f hc2
    have h2 := h d hd
    rw [List.findSome?_eq_none_iff] at h2
    have h3 := h2 f hf
    rw [if_pos hc2, hp] at h3
    exact absurd h3 (by simp)
  · intro h d hd
    exact inner_none_of_all_incomplete d (h d hd)

theorem findSome?_split {α β : Type} (f : α → Option β) (pre : List α) (x : α)
    (post : List α) (b : β) (hpre : ∀ a ∈ pre, f a = none) (hx : f x = some b) :
    (pre ++ x :: post).findSome? f = some b := by
  have h0 : pre.findSome? f = none := List.findSome?_eq_none_iff.mpr hpre
  rw [List.findSome?_append, h0, List.findSome?_cons_of_isSome _ (by rw [hx]; rfl)]
  simpa using hx

theorem find_shapefile_first (dpre : List WalkDir) (dp : String)
    (fpre : List String) (name : String) (fpost : List String) (dpost : List WalkDir)
    (hpre : ∀ d' ∈ dpre, ∀ f ∈ d'.filenames, completeShpAt d'.filenames f = false)
    (hfpre : ∀ f ∈ fpre, completeShpAt (fpre ++ name :: fpost) f = false)
    (hname : completeShpAt (fpre ++ name :: fpost) name = true) :
    ∃ sx db2 pj, find_shapefile (dpre ++ (⟨dp, fpre ++ name :: fpost⟩ : WalkDir) :: dpost)
      = some ⟨pyJoinStr dp name, pyJoinStr dp sx, pyJoinStr dp db2, pyJoinStr dp pj⟩ := by
  obtain ⟨sx, db2, pj, hp⟩ :=
    partsFor_isSome (⟨dp, fpre ++ name :: fpost⟩ : WalkDir) name hname
  refine ⟨sx, db2, pj, ?_⟩
  unfold find_shapefile
  apply findSome?_split
  · intro d' hd'
    exact inner_none_of_all_incomplete d' (hpre d' hd')
  · show ((fpre ++ name :: fpost).findSome? fun n =>
        if completeShpAt (fpre ++ name :: fpost) n
        then partsFor (⟨dp, fpre ++ name :: fpost⟩ : WalkDir) n else none) = _
    apply findSome?_split
    · intro f hf
      rw [hfpre f hf]
      simp
    · rw [if_pos hname, hp]

/-- Claim C7: `completeShpAt` is exactly "lower-cased name ends in `.shp`
and every required sibling exists with the same base name, compared
case-insensitively"; the search fails with `IncompleteShapefile` iff no
file of any walked directory passes it; and when some file does, the one
returned is the first — first directory in walk order, first matching
filename within it. -/
theorem find_shapefile_spec :
    (∀ (files : List String) (name : String), completeShpAt files name = true
        ↔ (pyEndsWithL (lowerL name.data) ".shp".data = true
            ∧ ∀ ext ∈ requiredExts, ∃ f ∈ files,
                lowerL f.data = lowerL (splitextRoot name.data ++ ext.data)))
    ∧ (∀ walk : List WalkDir, locate_shapefile walk = Except.error incompleteMsg
        ↔ ∀ d ∈ walk, ∀ f ∈ d.filenames, completeShpAt d.filenames f = false)
    ∧ (∀ (dpre : List WalkDir) (dp : String) (fpre : List String) (name : String)
        (fpost : List String) (dpost : List WalkDir),
        (∀ d' ∈ dpre, ∀ f ∈ d'.filenames, completeShpAt d'.filenames f = false) →
        (∀ f ∈ fpre, completeShpAt (fpre ++ name :: fpost) f = false) →
        completeShpAt (fpre ++ name :: fpost) name = true →
        ∃ sx db2 pj,
          find_shapefile (dpre ++ (⟨dp, fpre ++ name :: fpost⟩ : WalkDir) :: dpost)
            = some ⟨pyJoinStr dp name, pyJoinStr dp sx,
                    pyJoinStr dp db2, pyJoinStr dp pj⟩) := by
  refine ⟨?_, ?_, find_shapefile_first⟩
  · intro files name
    simp [completeShpAt, List.all_eq_true, List.any_eq_true]
  · intro walk
    rw [← find_shapefile_none_iff]
    unfold locate_shapefile
    constructor
    · intro h
      cases hf : find_shapefile walk
      · rfl
      · rw [hf] at h
        exact absurd h (by simp)
    · intro h
      rw [h]

/-- Witness for `find_shapefile_spec`: the spec's `parcels` example is
found (and is the whole result set), while a `.shp`+`.dbf`-only tree
fails with the incomplete-shapefile error. -/
theorem find_shapefile_spec_witness :
    (∃ sx db2 pj,
      find_shapefile
          [(⟨"data", ["parcels.shp", "parcels.shx", "parcels.dbf", "parcels.prj"]⟩ : WalkDir)]
        = some ⟨pyJoinStr "data" "parcels.shp", pyJoinStr "data" sx,
                pyJoinStr "data" db2, pyJoinStr "data" pj⟩)
    ∧ locate_shapefile [(⟨"data", ["parcels.shp", "parcels.dbf"]⟩ : WalkDir)]
        = Except.error incompleteMsg :=
  ⟨find_shapefile_spec.2.2 [] "data" [] "parcels.shp"
      ["parcels.shx", "parcels.dbf", "parcels.prj"] [] (by simp) (by simp) (by decide),
   (find_shapefile_spec.2.1 _).mpr (by decide)⟩

/-! ### Claims C9, C10 — the items endpoint (routes.py)

`_read_int`, `_parse_bbox_param`, the clamp in `items` (lines 61-65) and
the query construction of `db.fetch_features`.  `int(str)` and
`float(str)` are modelled by `pyInt` (exact integer semantics, including
sign, surrounding whitespace and digit-group underscores) and by the
oracle `pf` respectively. -/

/-- `('_' digit | digit)*` after a first digit, accumulating the value —
the digit-and-underscore body of a Python integer literal. -/
def pyIntBody : Nat → List Char → Option Nat
  | acc, [] => some acc
  | acc, '_' :: c :: rest =>
    if isPyDigit c then pyIntBody (acc * 10 + (c.toNat - 48)) rest else none
  | _, '_' :: [] => none
  | acc, c :: rest =>
    if isPyDigit c then pyIntBody (acc * 10 + (c.toNat - 48)) rest else none

/-- The unsigned part of `int(str)`: at least one digit, underscores only
between digits. -/
def pyIntAbs : List Char → Option Nat
  | [] => none
  | c :: rest => if isPyDigit c then pyIntBody (c.toNat - 48) rest else none

/-- `int(str)`: strip whitespace, optional sign, digits. -/
def pyInt (s : String) : Option Int :=
  match pyStrip s.data with
  | '-' :: rest => (pyIntAbs rest).map (fun n => -(n : Int))
  | '+' :: rest => (pyIntAbs rest).map (fun n => (n : Int))
  | l => (pyIntAbs l).map (fun n => (n : Int))

/-- `routes._read_int(raw, default)`: `None` or a `ValueError` falls back
to the default. -/
def read_int (raw : Option String) (dflt : Int) : Int :=
  match raw with
  | none => dflt
  | some s =>
    match pyInt s with
    | some n => n
    | none => dflt

/-- The paging computation of `routes.items` (lines 61-65): read limit
(default 100) and offset (default 0), clamp the limit to the configured
maximum. -/
def items_paging (rawLimit rawOffset : Option String) (maxItems : Int) : Int × Int :=
  (if read_int rawLimit 100 > maxItems then maxItems else read_int rawLimit 100,
   read_int rawOffset 0)

/-- `routes._parse_bbox_param(raw)`: absent or empty means no filter;
otherwise exactly four comma-separated floats or a client error. -/
def parse_bbox_param {F : Type} (pf : List Char → Option F) (raw : Option String) :
    Except String (Option (List F)) :=
  match raw with
  | none => Except.ok none
  | some s =>
    if s.data = [] then Except.ok none
    else
      if (splitOnCharL ',' s.data).length ≠ 4 then
        Except.error "bbox must use minx,miny,maxx,maxy"
      else
        match (splitOnCharL ',' s.data).mapM pf with
        | some vals => Except.ok (some vals)
        | none => Except.error "bbox contains non numeric values"

/-- The WHERE clauses `db.fetch_features` builds: the envelope
intersection clause exactly when `bbox` is truthy (`if bbox:`). -/
def bbox_clauses {F : Type} (bbox : Option (List F)) : List String :=
  match bbox with
  | some l =>
    if l.isEmpty then []
    else ["geom && ST_MakeEnvelope(:minx, :miny, :maxx, :maxy, 4326)"]
  | none => []

/-- `db.fetch_features`: sanitize the table reference, then run the query
`SELECT ... [WHERE geom && envelope] LIMIT :limit OFFSET :offset` over the
table's rows (the database rows and the envelope-intersection predicate
are the model's inputs; a negative LIMIT/OFFSET is a database error,
wrapped like every `SQLAlchemyError`). -/
def fetch_features {F α : Type} (rows : List α) (inBbox : List F → α → Bool)
    (schema : Option String) (table : String) (bbox : Option (List F))
    (lim off : Int) : Except String (List α) :=
  match build_full_table schema table with
  | Except.error e => Except.error e
  | Except.ok _ =>
    if lim < 0 ∨ off < 0 then
      Except.error "Could not read features: negative LIMIT or OFFSET"
    else
      Except.ok ((((match bbox with
        | some l => if l.isEmpty then rows else rows.filter (inBbox l)
        | none => rows)).drop off.toNat).take lim.toNat)

/-- `routes.items` after bbox parsing: paging then the feature query. -/
def items_features {F α : Type} (rows : List α) (inBbox : List F → α → Bool)
    (schema : Option String) (table : String) (bbox : Option (List F))
    (rawLimit rawOffset : Option String) (maxItems : Int) : Except String (List α) :=
  fetch_features rows inBbox schema table bbox
    (items_paging rawLimit rawOffset maxItems).1
    (items_paging rawLimit rawOffset maxItems).2

/-- Claim C9: the effective limit passed to the feature query is the
requested limit capped at the configured maximum (`min`), the offset is
passed through, non-numeric limit/offset strings (and absent parameters)
fall back to the defaults 100 and 0 instead of failing, and a request
with `limit=999999` against a maximum of 1000 gets effective limit 1000
and therefore at most 1000 features. -/
theorem items_limit_clamped :
    (∀ (rawLimit rawOffset : Option String) (maxItems : Int),
        (items_paging rawLimit rawOffset maxItems).1 = min (read_int rawLimit 100) maxItems
        ∧ (items_paging rawLimit rawOffset maxItems).2 = read_int rawOffset 0)
    ∧ (∀ s : String, pyInt s = none → read_int (some s) 100 = 100 ∧ read_int (some s) 0 = 0)
    ∧ (read_int none 100 = 100 ∧ read_int none 0 = 0)
    ∧ (items_paging (some "999999") none 1000).1 = 1000
    ∧ (∀ (F α : Type) (rows : List α) (inBbox : List F → α → Bool)
        (schema : Option String) (table : String) (bbox : Option (List F))
        (res : List α),
        items_features rows inBbox schema table bbox (some "999999") none 1000
          = Except.ok res →
        res.length ≤ 1000) := by
  refine ⟨?_, ?_, ⟨rfl, rfl⟩, by decide, ?_⟩
  · intro rawLimit rawOffset maxItems
    refine ⟨?_, rfl⟩
    simp only [items_paging]
    rw [Int.min_def]
    split
    · split
      · omega
      · rfl
    · split
      · rfl
      · omega
  · intro s h
    exact ⟨by simp [read_int, h], by simp [read_int, h]⟩
  · intro F α rows inBbox schema table bbox res h
    unfold items_features at h
    have hp : items_paging (some "999999") none 1000 = (1000, 0) := by decide
    rw [hp] at h
    unfold fetch_features at h
    split at h
    · exact absurd h (by simp)
    · rw [if_neg (by omega)] at h
      have hres := Except.ok.inj h
      rw [← hres]
      simp only [List.length_take]
      have := Nat.min_le_left ((1000, 0) : Int × Int).1.toNat
        ((List.drop ((1000, 0) : Int × Int).2.toNat (match bbox with
          | some l => if l.isEmpty = true then rows else List.filter (inBbox l) rows
          | none => rows)).length)
      omega

/-- Witness for `items_limit_clamped`: non-numeric parameters fall back
to the defaults, and serving `limit=999999` over a 3-row table returns
its 3 rows (at most 1000). -/
theorem items_limit_clamped_witness :
    (read_int (some "abc") 100 = 100 ∧ read_int (some "abc") 0 = 0)
    ∧ ([0, 1, 2] : List Nat).length ≤ 1000 :=
  ⟨items_limit_clamped.2.1 "abc" (by decide),
   items_limit_clamped.2.2.2.2 (List Char) Nat [0, 1, 2] (fun _ _ => true)
     none "t" none [0, 1, 2] rfl⟩

/-- Claim C10: an absent or empty `bbox` query parameter parses to "no
filter" — and then no spatial WHERE clause is added and the query runs
over all rows — while the client error is raised exactly for non-empty
strings that are not four comma-separated floats. -/
theorem bbox_param_spec :
    (∀ (F : Type) (pf : List Char → Option F),
        parse_bbox_param pf none = Except.ok none
        ∧ parse_bbox_param pf (some "") = Except.ok none)
    ∧ (∀ (F : Type) (pf : List Char → Option F) (raw : String),
        (∃ e, parse_bbox_param pf (some raw) = Except.error e)
          ↔ (raw ≠ "" ∧ ¬((splitOnCharL ',' raw.data).length = 4
              ∧ ((splitOnCharL ',' raw.data).mapM pf).isSome = true)))
    ∧ (∀ F : Type, bbox_clauses (none : Option (List F)) = [])
    ∧ (∀ (F α : Type) (rows : List α) (inBbox : List F → α → Bool)
        (schema : Option String) (table full : String) (lim off : Int),
        build_full_table schema table = Except.ok full →
        ¬ lim < 0 → ¬ off < 0 →
        fetch_features rows inBbox schema table none lim off
          = Except.ok ((rows.drop off.toNat).take lim.toNat)) := by
  refine ⟨fun F pf => ⟨rfl, rfl⟩, ?_, fun F => rfl, ?_⟩
  · intro F pf raw
    by_cases hd : raw.data = []
    · have hraw : raw = "" := by
        apply String.ext
        exact hd
      subst hraw
      constructor
      · intro ⟨e, he⟩
        exact absurd he (by simp [parse_bbox_param])
      · intro ⟨hne, _⟩
        exact absurd rfl hne
    · have hne : raw ≠ "" := by
        intro he
        subst he
        exact hd rfl
      simp only [parse_bbox_param]
      rw [if_neg hd]
      by_cases hlen : (splitOnCharL ',' raw.data).length = 4
      · rw [if_neg (by omega)]
        cases hm : (splitOnCharL ',' raw.data).mapM pf with
        | none =>
          constructor
          · intro _
            refine ⟨hne, ?_⟩
            intro ⟨_, hs⟩
            exact absurd hs (by simp)
          · intro _
            exact ⟨_, rfl⟩
        | some vals =>
          constructor
          · intro ⟨e, he⟩
            exact absurd he (by simp)
          · intro ⟨_, hs⟩
            exact absurd ⟨hlen, rfl⟩ hs
      · rw [if_pos hlen]
        constructor
        · intro _
          exact ⟨hne, fun hc => hlen hc.1⟩
        · intro _
          exact ⟨_, rfl⟩
  · intro F α rows inBbox schema table full lim off hfull hlim hoff
    unfold fetch_features
    rw [hfull]
    have hcond : ¬(lim < 0 ∨ off < 0) := by omega
    simp [hcond]

/-- Witness for `bbox_param_spec`: a three-part bbox string is a client
error, and a filterless query over one row with limit 5 returns the
row. -/
theorem bbox_param_spec_witness :
    (∃ e, parse_bbox_param (fun t => (some t : Option (List Char))) (some "1,2,3")
        = Except.error e)
    ∧ fetch_features ([0] : List Nat) (fun (_ : List Char) _ => true) none "t" none 5 0
        = Except.ok [0] :=
  ⟨(bbox_param_spec.2.1 (List Char) (fun t => some t) "1,2,3").mpr (by decide),
   by
     have h := bbox_param_spec.2.2.2 (List Char) Nat [0] (fun _ _ => true)
       none "t" "t" 5 0 rfl (by omega) (by omega)
     simpa using h⟩

end ShpToApi
